import Mathlib

/-!
# Verification of the `morning-read` digest-to-Notion conversion core

Shallow embedding of `src/utils/notion.ts` (class `NotionService`):
the rich-text parser `parseRichText`, the line-oriented block converter
`convertContentToBlocks` with its block builders, the ordinal-suffix helper
of `createDayPage`, and the remote page-resolution flow
(`handlePageContext`, `createDayPage`, `updateMorningBriefDb`).

Modeling conventions:
* JS strings are modeled as `String`/`List Char`; `split("\n")`,
  `startsWith`, `includes`, `trim`, `substring`, `slice` are modeled by
  character-list functions below.  Whitespace is the ASCII whitespace set
  of `Char.isWhitespace`.
* The two regexes of the source, `/(\[.*?\]\(.*?\))/` (used by
  `String.split` in `parseRichText`) and `/@\(\[.*?\]\(.*?\)\)/g` (used by
  `String.replace` in `createHeadingBlock`), are modeled by explicit
  leftmost-match scanners.  `.` does not match JS line terminators, which
  the scanners refuse accordingly.
* Remote Notion calls are modeled by an environment `NotionEnv` giving each
  call site's outcome (`Except` for success/failure); the effectful
  operations also return the ordered trace of remote calls they perform.
  JS error values are abstracted as their message strings, and template
  interpolation of a cause into a message as string concatenation.
-/

namespace MorningRead

/-- Prepend a character to the first piece of a split result
(used to build up the piece of text preceding the next match). -/
def consHead (c : Char) : List (List Char) → List (List Char)
  | [] => [[c]]
  | p :: ps => (c :: p) :: ps

/-- JS line terminators, which `.` in a regex does not match. -/
def isLineTerm (c : Char) : Bool :=
  c = '\n' ∨ c = '\r' ∨ c = '\u2028' ∨ c = '\u2029'

/-- Lazy `.*?\]\(`: consume the shortest run of non-terminator characters up
to the first occurrence of `](`, returning that run and the remainder after
the delimiter; `none` if there is no reachable occurrence. -/
def scanToBrkParen : List Char → Option (List Char × List Char)
  | [] => none
  | [_] => none
  | c :: c₂ :: cs =>
    if c = ']' ∧ c₂ = '(' then some ([], cs)
    else if isLineTerm c then none
    else (scanToBrkParen (c₂ :: cs)).map fun p => (c :: p.1, p.2)

/-- Lazy `.*?\)`: shortest run of non-terminator characters up to the first
`)`, returning the run and the remainder after it. -/
def scanToCloseParen : List Char → Option (List Char × List Char)
  | [] => none
  | c :: cs =>
    if c = ')' then some ([], cs)
    else if isLineTerm c then none
    else (scanToCloseParen cs).map fun p => (c :: p.1, p.2)

/-- Lazy `.*?\)\)`: shortest run of non-terminator characters up to the
first `))`, returning the run and the remainder after the two parens. -/
def scanToDblParen : List Char → Option (List Char × List Char)
  | [] => none
  | [_] => none
  | c :: c₂ :: cs =>
    if c = ')' ∧ c₂ = ')' then some ([], cs)
    else if isLineTerm c then none
    else (scanToDblParen (c₂ :: cs)).map fun p => (c :: p.1, p.2)

/-- A match of `\[.*?\]\(.*?\)` anchored at the head of the input:
returns the lazily-chosen text part, url part, and the remainder after the
match. -/
def linkMatchHere (l : List Char) : Option (List Char × List Char × List Char) :=
  match l with
  | [] => none
  | c :: cs =>
    if c = '[' then
      match scanToBrkParen cs with
      | some (t, cs₂) =>
        match scanToCloseParen cs₂ with
        | some (u, cs₃) => some (t, u, cs₃)
        | none => none
      | none => none
    else none

/-- The full text of a `\[.*?\]\(.*?\)` match with text part `t` and url
part `u`. -/
def linkSurface (t u : List Char) : List Char :=
  '[' :: (t ++ ']' :: '(' :: (u ++ [')']))

/-- A match of `@\(\[.*?\]\(.*?\)\)` anchored at the head of the input:
returns the remainder after the match. -/
def placeholderMatchHere (l : List Char) : Option (List Char) :=
  match l with
  | c :: c₂ :: c₃ :: cs =>
    if c = '@' ∧ c₂ = '(' ∧ c₃ = '[' then
      match scanToBrkParen cs with
      | some (_, cs₂) =>
        match scanToDblParen cs₂ with
        | some (_, cs₃) => some cs₃
        | none => none
      | none => none
    else none
  | _ => none

/-- JS `content.split(/(\[.*?\]\(.*?\))/)`: scan left to right; at each
position emit the leftmost match as its own piece (the capture group is the
whole match) and continue after it; characters outside matches accumulate
into the surrounding pieces.  Structured with explicit fuel (one unit per
character) so that the definition is structurally recursive; the fuel
`l.length` always suffices because each step consumes at least one
character. -/
def regexSplitAux : Nat → List Char → List (List Char)
  | 0, l => [l]
  | _ + 1, [] => [[]]
  | fuel + 1, c :: cs =>
    match linkMatchHere (c :: cs) with
    | some (t, u, rest) => [] :: linkSurface t u :: regexSplitAux fuel rest
    | none => consHead c (regexSplitAux fuel cs)

/-- JS `content.split(/(\[.*?\]\(.*?\))/)` on a character list. -/
def regexSplit (l : List Char) : List (List Char) :=
  regexSplitAux l.length l

/-- JS `content.replace(/@\(\[.*?\]\(.*?\)\)/g, "")`: delete every
leftmost, non-overlapping match, scanning left to right.  Fueled like
`regexSplitAux`. -/
def stripPlaceholdersAux : Nat → List Char → List Char
  | 0, l => l
  | _ + 1, [] => []
  | fuel + 1, c :: cs =>
    match placeholderMatchHere (c :: cs) with
    | some rest => stripPlaceholdersAux fuel rest
    | none => c :: stripPlaceholdersAux fuel cs

/-- JS `content.replace(/@\(\[.*?\]\(.*?\)\)/g, "")` on a character list. -/
def stripPlaceholders (l : List Char) : List Char :=
  stripPlaceholdersAux l.length l

/-- JS `String.split` with the literal separator `](`: split at every
non-overlapping occurrence, scanning left to right. -/
def splitOnBrkParen : List Char → List (List Char)
  | [] => [[]]
  | [c] => [[c]]
  | c :: c₂ :: cs =>
    if c = ']' ∧ c₂ = '(' then [] :: splitOnBrkParen cs
    else consHead c (splitOnBrkParen (c₂ :: cs))

/-- First occurrence of the literal `](`: the part before it and the part
after it (no line-terminator restriction, unlike the regex scanners). -/
def seekBrkParen : List Char → Option (List Char × List Char)
  | [] => none
  | [_] => none
  | c :: c₂ :: cs =>
    if c = ']' ∧ c₂ = '(' then some ([], cs)
    else (seekBrkParen (c₂ :: cs)).map fun p => (c :: p.1, p.2)

/-- JS `String.split` with a single-character separator (here `"\n"`). -/
def splitOnChar (sep : Char) : List Char → List (List Char)
  | [] => [[]]
  | c :: cs =>
    if c = sep then [] :: splitOnChar sep cs
    else consHead c (splitOnChar sep cs)

/-- JS `haystack.includes(needle)`. -/
def hasSeq (needle : List Char) : List Char → Bool
  | [] => needle.isEmpty
  | c :: cs => needle.isPrefixOf (c :: cs) || hasSeq needle cs

/-- JS `String.trim` (restricted to the ASCII whitespace of
`Char.isWhitespace`). -/
def trimL (l : List Char) : List Char :=
  ((l.dropWhile Char.isWhitespace).reverse.dropWhile Char.isWhitespace).reverse

/-- One item of a Notion `rich_text` array, as built by `parseRichText` and
the block builders: `{ type: "text", text: { content, link?: { url } } }`.
A missing `link` field is `plainText`; a present `link` whose `url` may be
`undefined` (when the destructured split has no second element) is `link`
with an `Option String` url. -/
inductive RichSpan where
  | plainText (content : String)
  | link (content : String) (url : Option String)
deriving DecidableEq, Repr

/-- The TS union type `"heading_1" | "heading_2" | "heading_3"`. -/
inductive HeadingType where
  | heading_1
  | heading_2
  | heading_3
deriving DecidableEq, Repr

/-- A content block as built by the `create*Block` helpers (the wire JSON
carries the same data plus constant tags). -/
inductive Block where
  | heading (level : HeadingType) (richText : List RichSpan)
  | paragraph (richText : List RichSpan)
  | bullet (richText : List RichSpan)
deriving DecidableEq, Repr

/-- The arrow function inside `parseRichText`'s `parts.map`:
``if (part.startsWith("[") && part.includes("](")) { const [text, url] =
part.slice(1, -1).split("]("); … } else { … }``.
`part.slice(1, -1)` is `(part.drop 1).dropLast`; the destructuring takes
elements 0 and 1 of the split (element 1 may be absent). -/
def spanOfToken (part : List Char) : RichSpan :=
  if ("[".toList.isPrefixOf part ∧ hasSeq "](".toList part = true) then
    let ps := splitOnBrkParen ((part.drop 1).dropLast)
    RichSpan.link (ps.headD []).asString ((ps.get? 1).map List.asString)
  else
    RichSpan.plainText part.asString

/-- `NotionService.parseRichText` (notion.ts:168-182):
`content.split(/(\[.*?\]\(.*?\))/)` followed by the per-token map. -/
def parseRichText (content : String) : List RichSpan :=
  (regexSplit content.toList).map spanOfToken

/-- `parseRichText` acting directly on a character list (the block builders
below receive their text as character lists). -/
def parseRichTextL (content : List Char) : List RichSpan :=
  (regexSplit content).map spanOfToken

/-- `NotionService.createHeadingBlock` (notion.ts:142-152): strip every
`@\(\[.*?\]\(.*?\)\)` match, then trim, and wrap in a single plain text
span. -/
def createHeadingBlock (content : List Char) (type : HeadingType) : Block :=
  let filteredContent := stripPlaceholders content
  Block.heading type [RichSpan.plainText (trimL filteredContent).asString]

/-- `NotionService.createParagraphBlock` (notion.ts:154-166): a paragraph
containing `"AI Summarized"` is replaced by the empty string; an empty
filtered content yields `null` (here `none`), otherwise a paragraph block
over `parseRichText`. -/
def createParagraphBlock (content : List Char) : Option Block :=
  let filteredContent := if hasSeq "AI Summarized".toList content then [] else content
  if filteredContent = [] then none
  else some (Block.paragraph (parseRichTextL filteredContent))

/-- `NotionService.createBulletedListItemBlock` (notion.ts:184-192). -/
def createBulletedListItemBlock (content : List Char) : Block :=
  Block.bullet (parseRichTextL content)

/-- The three-line flush idiom repeated inside `convertContentToBlocks`:
`if (currentParagraph) { blocks.push(this.createParagraphBlock(currentParagraph));
currentParagraph = ""; }` — the pushed entry may be `null`. -/
def flushPar (p : List Char) : List (Option Block) :=
  if p = [] then [] else [createParagraphBlock p]

/-- The loop body of `convertContentToBlocks` (notion.ts:92-137), as a
recursion over the remaining lines.  The `Bool` is `skipIntroduction`, the
`List Char` the `currentParagraph` accumulator; the result is the list of
pushed entries (`null`s included), ending with the after-loop flush. -/
def convertLines : Bool → List Char → List (List Char) → List (Option Block)
  | _, p, [] => flushPar p
  | true, p, line :: rest =>
    if trimL line = "---".toList then convertLines false p rest
    else convertLines true p rest
  | false, p, line :: rest =>
    if "# ".toList.isPrefixOf line then
      flushPar p ++ some (createHeadingBlock (line.drop 2) .heading_1) :: convertLines false [] rest
    else if "## ".toList.isPrefixOf line then
      flushPar p ++ some (createHeadingBlock (line.drop 3) .heading_2) :: convertLines false [] rest
    else if "### ".toList.isPrefixOf line then
      flushPar p ++ some (createHeadingBlock (line.drop 4) .heading_3) :: convertLines false [] rest
    else if "- ".toList.isPrefixOf line then
      flushPar p ++ some (createBulletedListItemBlock (line.drop 2)) :: convertLines false [] rest
    else if trimL line = [] then
      flushPar p ++ convertLines false [] rest
    else
      convertLines false (p ++ line) rest

/-- `NotionService.convertContentToBlocks` (notion.ts:86-140): split on
`"\n"`, run the line loop starting in the skip-introduction state with an
empty paragraph accumulator, and drop the `null` entries
(`blocks.filter((block) => block !== null)`). -/
def convertContentToBlocks (content : String) : List Block :=
  (convertLines true [] (splitOnChar '\n' content.toList)).filterMap id

/-- JS array indexing `arr[i]` for a possibly negative index: `undefined`
(`none`) when out of range. -/
def jsArrGet (arr : List String) (i : Int) : Option String :=
  if 0 ≤ i then arr.get? i.toNat else none

/-- JS `a || b` over possibly-`undefined` strings (every string in the
suffix table is non-empty, so only `undefined` is falsy here). -/
def jsOr (a b : Option String) : Option String :=
  match a with
  | some x => some x
  | none => b

/-- The suffix chain `s[(v - 20) % 10] || s[v] || s[0]` of
`getOrdinalSuffix`, where `%` is the JS remainder (truncated division,
`Int.tmod`) and a negative index reads `undefined`. -/
def ordSuffixChain (v : Nat) : String :=
  let s := ["th", "st", "nd", "rd"]
  (jsOr (jsOr (jsArrGet s (((v : Int) - 20).tmod 10)) (jsArrGet s (v : Int))) (jsArrGet s 0)).getD ""

/-- `getOrdinalSuffix` (notion.ts:58-62): `n + (s[(v-20)%10] || s[v] || s[0])`
with `v = n % 100`. -/
def getOrdinalSuffix (n : Nat) : String :=
  toString n ++ ordSuffixChain (n % 100)

/-- A child block returned by `notion.blocks.children.list`: either a
`child_page` block (with its `child_page.title`) or a block of some other
`type`. -/
inductive NotionChildBlock where
  | childPage (id : String) (title : String)
  | other (blockType : String)
deriving DecidableEq, Repr

/-- The filter predicate of notion.ts:23-25:
`"type" in block && block.type === "child_page"`. -/
def isChildPage : NotionChildBlock → Bool
  | .childPage _ _ => true
  | .other _ => false

/-- A remote page handle: an opaque id plus its title. -/
structure PageRef where
  id : String
  title : String
deriving DecidableEq, Repr

/-- The outcome of `handlePageContext`'s search: either an existing child
page was returned, or a create call for a new page (under `parentId`, with
the given title) was issued and its result returned. -/
inductive MonthResolution where
  | existing (page : PageRef)
  | createNew (parentId : String) (title : String)
deriving DecidableEq, Repr

/-- The hardcoded default `parentId` of `handlePageContext`. -/
def rootPageId : String := "75b22e80-f388-41e8-a02c-2a88d879df5b"

/-- The `for (const page of nestedPages)` loop of notion.ts:28-35: return
the first child page whose title `includes` the current month name. -/
def findMonthPageLoop (currentMonth : String) : List NotionChildBlock → Option PageRef
  | [] => none
  | .childPage id title :: rest =>
    if hasSeq currentMonth.toList title.toList then some ⟨id, title⟩
    else findMonthPageLoop currentMonth rest
  | .other _ :: rest => findMonthPageLoop currentMonth rest

/-- The decision logic of `handlePageContext` (notion.ts:21-51) as a pure
function of the listed children and the current month name: filter to
`child_page` blocks, scan for the first title match, otherwise create a new
page under `parentId` titled exactly `currentMonth`. -/
def handlePageContext (children : List NotionChildBlock) (currentMonth : String)
    (parentId : String := rootPageId) : MonthResolution :=
  let nestedPages := children.filter isChildPage
  match findMonthPageLoop currentMonth nestedPages with
  | some page => .existing page
  | none => .createNew parentId currentMonth

/-- One remote Notion API call. -/
inductive RemoteCall where
  | listChildren (parentId : String)
  | createPage (parentId : String) (title : String) (children : List Block)
deriving DecidableEq, Repr

/-- Outcomes of the remote Notion API, one entry per call shape: a call
either returns a value or throws (an error abstracted as its message
string). -/
structure NotionEnv where
  listChildrenResult : String → Except String (List NotionChildBlock)
  createPageResult : String → String → List Block → Except String PageRef

/-- `handlePageContext` with its remote calls (notion.ts:21-51): list the
children of `parentId`, scan for the month page, otherwise create one.  No
`try`/`catch` here: any remote failure propagates unwrapped.  Also returns
the ordered trace of remote calls performed. -/
def handlePageContextRun (env : NotionEnv) (currentMonth : String)
    (parentId : String := rootPageId) : Except String PageRef × List RemoteCall :=
  match env.listChildrenResult parentId with
  | .error e => (.error e, [.listChildren parentId])
  | .ok children =>
    match findMonthPageLoop currentMonth (children.filter isChildPage) with
    | some page => (.ok page, [.listChildren parentId])
    | none =>
      (env.createPageResult parentId currentMonth [],
       [.listChildren parentId, .createPage parentId currentMonth []])

/-- `createDayPage` (notion.ts:53-84): build the title from the long month
name and the ordinal day, convert the digest content, and create the page
with the blocks as children; a failure of the create call is rethrown as
`"Failed to create day page in Notion: " ++ cause`.  The clock (`month`,
`day`) is passed explicitly. -/
def createDayPage (env : NotionEnv) (monthPageId : String) (month : String)
    (day : Nat) (content : String) : Except String PageRef × List RemoteCall :=
  let title := month ++ " " ++ getOrdinalSuffix day
  let blocks := convertContentToBlocks content
  (match env.createPageResult monthPageId title blocks with
   | .ok response => .ok response
   | .error e => .error ("Failed to create day page in Notion: " ++ e),
   [.createPage monthPageId title blocks])

/-- `updateMorningBriefDb` (notion.ts:10-19): resolve the month page, then
create the day page under it; any error from either stage is rethrown as
`"Notion Error: " ++ cause`. -/
def updateMorningBriefDb (env : NotionEnv) (currentMonth month : String)
    (day : Nat) (content : String) : Except String PageRef × List RemoteCall :=
  match handlePageContextRun env currentMonth with
  | (.error e, t₁) => (.error ("Notion Error: " ++ e), t₁)
  | (.ok monthPage, t₁) =>
    match createDayPage env monthPage.id month day content with
    | (.ok page, t₂) => (.ok page, t₁ ++ t₂)
    | (.error e, t₂) => (.error ("Notion Error: " ++ e), t₁ ++ t₂)

/-- The error, if any, that the environment assigns to a given remote
call. -/
def callErr (env : NotionEnv) : RemoteCall → Option String
  | .listChildren parentId =>
    match env.listChildrenResult parentId with
    | .error e => some e
    | .ok _ => none
  | .createPage parentId title children =>
    match env.createPageResult parentId title children with
    | .error e => some e
    | .ok _ => none

/-! ## Specification-side definitions

Each definition below follows the words of a spec claim (for comparison
with the source-derived definitions above). -/

/-- The spec's ordinal rule: `day%100 in [11,12,13] → "th"; else day%10:
1→"st", 2→"nd", 3→"rd"; else "th"`. -/
def ordinalSuffixSpec (d : Nat) : String :=
  if d % 100 = 11 ∨ d % 100 = 12 ∨ d % 100 = 13 then "th"
  else if d % 10 = 1 then "st"
  else if d % 10 = 2 then "nd"
  else if d % 10 = 3 then "rd"
  else "th"

/-- The spec's month search: the first page-kind child, in listing order,
whose title contains `currentMonth` as a substring. -/
def firstMonthMatch (children : List NotionChildBlock) (currentMonth : String) :
    Option PageRef :=
  (children.filterMap fun b =>
    match b with
    | .childPage id title =>
      if hasSeq currentMonth.toList title.toList then some (⟨id, title⟩ : PageRef)
      else none
    | .other _ => none).head?

/-- The token map of claim C4 as amended: a token that begins with `[` and
contains `](` becomes a Link span whose text is the part of the inner slice
before its first `](` and whose url is the part between the first and
second `](` (the whole remainder when there is no second occurrence, absent
when the inner slice has no `](` at all); every other token becomes a
PlainText span with its literal content. -/
def spanOfTokenSpec (part : List Char) : RichSpan :=
  if ("[".toList.isPrefixOf part ∧ hasSeq "](".toList part = true) then
    let inner := (part.drop 1).dropLast
    match seekBrkParen inner with
    | none => RichSpan.link inner.asString none
    | some (t, r) =>
      match seekBrkParen r with
      | none => RichSpan.link t.asString (some r.asString)
      | some (u, _) => RichSpan.link t.asString (some u.asString)
  else
    RichSpan.plainText part.asString

/-- The token-to-span map of claim C4 as amended, lifted over the split. -/
def parseRichTextSpec (content : String) : List RichSpan :=
  (regexSplit content.toList).map spanOfTokenSpec

/-- The surface text of a span with the `[text](url)` bracket decoration
reinserted around Link spans (an absent url reads as empty). -/
def spanSurface : RichSpan → List Char
  | .plainText content => content.toList
  | .link content url => linkSurface content.toList (url.getD "").toList

/-- Concatenated surface text of a span list. -/
def spansSurface (spans : List RichSpan) : String :=
  ((spans.map spanSurface).flatten).asString

/-- A token is faithfully decodable when, if it enters the link branch of
`parseRichText`'s map, its inner slice splits at `](` into exactly a text
and a url segment that reassemble to the token itself (equivalently: the
token carries exactly one interior `](` and ends with `)`). -/
def tokenFaithful (part : List Char) : Bool :=
  if ("[".toList.isPrefixOf part ∧ hasSeq "](".toList part = true) then
    match splitOnBrkParen ((part.drop 1).dropLast) with
    | [t, u] => part = linkSurface t u
    | _ => false
  else
    true

/-- The heading marks of the three heading branches of
`convertContentToBlocks`, paired with their heading types. -/
def headingMark : HeadingType → List Char
  | .heading_1 => "# ".toList
  | .heading_2 => "## ".toList
  | .heading_3 => "### ".toList

/-! ## Lemmas about the regex-split scanners -/

theorem scanToBrkParen_recon : ∀ l t r, scanToBrkParen l = some (t, r) →
    l = t ++ ']' :: '(' :: r := by
  intro l
  induction l with
  | nil => intro t r h; simp [scanToBrkParen] at h
  | cons c cs ih =>
    intro t r h
    cases cs with
    | nil => simp [scanToBrkParen] at h
    | cons c₂ cs' =>
      simp only [scanToBrkParen] at h
      by_cases h₁ : c = ']' ∧ c₂ = '('
      · rw [if_pos h₁] at h
        obtain ⟨rfl, rfl⟩ := h₁
        obtain ⟨rfl, rfl⟩ := Prod.mk.injEq .. ▸ Option.some.inj h
        simp
      · rw [if_neg h₁] at h
        by_cases h₂ : isLineTerm c = true
        · simp [h₂] at h
        · simp only [h₂, if_false, Bool.false_eq_true] at h
          simp only [Option.map_eq_some'] at h
          obtain ⟨⟨t', r'⟩, hscan, hp⟩ := h
          obtain ⟨rfl, rfl⟩ := Prod.mk.injEq .. ▸ hp
          simpa using ih t' r' hscan

theorem scanToCloseParen_recon : ∀ l t r, scanToCloseParen l = some (t, r) →
    l = t ++ ')' :: r := by
  intro l
  induction l with
  | nil => intro t r h; simp [scanToCloseParen] at h
  | cons c cs ih =>
    intro t r h
    simp only [scanToCloseParen] at h
    by_cases h₁ : c = ')'
    · rw [if_pos h₁] at h
      subst h₁
      obtain ⟨rfl, rfl⟩ := Prod.mk.injEq .. ▸ Option.some.inj h
      simp
    · rw [if_neg h₁] at h
      by_cases h₂ : isLineTerm c = true
      · simp [h₂] at h
      · simp only [h₂, if_false, Bool.false_eq_true] at h
        simp only [Option.map_eq_some'] at h
        obtain ⟨⟨t', r'⟩, hscan, hp⟩ := h
        obtain ⟨rfl, rfl⟩ := Prod.mk.injEq .. ▸ hp
        simpa using ih t' r' hscan

theorem linkMatchHere_recon {l t u rest} (h : linkMatchHere l = some (t, u, rest)) :
    l = linkSurface t u ++ rest := by
  cases l with
  | nil => simp [linkMatchHere] at h
  | cons c cs =>
    simp only [linkMatchHere] at h
    by_cases hc : c = '['
    · rw [if_pos hc] at h
      subst hc
      cases h₁ : scanToBrkParen cs with
      | none => simp only [h₁] at h; exact Option.noConfusion h
      | some p =>
        obtain ⟨t', cs₂⟩ := p
        simp only [h₁] at h
        cases h₂ : scanToCloseParen cs₂ with
        | none => simp only [h₂] at h; exact Option.noConfusion h
        | some q =>
          obtain ⟨u', cs₃⟩ := q
          simp only [h₂] at h
          obtain ⟨rfl, rfl, rfl⟩ : t' = t ∧ u' = u ∧ cs₃ = rest := by
            simpa using h
          have e₁ := scanToBrkParen_recon _ _ _ h₁
          have e₂ := scanToCloseParen_recon _ _ _ h₂
          subst e₂
          subst e₁
          simp [linkSurface]
    · rw [if_neg hc] at h
      cases h

theorem linkMatchHere_length {l t u rest} (h : linkMatchHere l = some (t, u, rest)) :
    l.length = t.length + u.length + rest.length + 4 := by
  have := congrArg List.length (linkMatchHere_recon h)
  simp [linkSurface] at this
  omega

theorem regexSplitAux_congr : ∀ n₁ : Nat, ∀ l : List Char, ∀ n₂ : Nat,
    l.length ≤ n₁ → l.length ≤ n₂ → regexSplitAux n₁ l = regexSplitAux n₂ l := by
  intro n₁
  induction n₁ with
  | zero =>
    intro l n₂ h₁ _
    have : l = [] := List.eq_nil_of_length_eq_zero (Nat.le_zero.mp h₁)
    subst this
    cases n₂ <;> simp [regexSplitAux]
  | succ n ih =>
    intro l n₂ h₁ h₂
    cases l with
    | nil => cases n₂ <;> simp [regexSplitAux]
    | cons c cs =>
      obtain ⟨m, rfl⟩ : ∃ m, n₂ = m + 1 := by
        cases n₂ with
        | zero => simp at h₂
        | succ m => exact ⟨m, rfl⟩
      cases h : linkMatchHere (c :: cs) with
      | some p =>
        obtain ⟨t, u, rest⟩ := p
        have hlen := linkMatchHere_length h
        simp only [regexSplitAux, h]
        simp only [List.length_cons] at h₁ h₂ hlen
        rw [ih rest m (by omega) (by omega)]
      | none =>
        simp only [regexSplitAux, h]
        simp only [List.length_cons] at h₁ h₂
        rw [ih cs m (by omega) (by omega)]

theorem regexSplit_match {c : Char} {cs t u rest : List Char}
    (h : linkMatchHere (c :: cs) = some (t, u, rest)) :
    regexSplit (c :: cs) = [] :: linkSurface t u :: regexSplit rest := by
  have hlen := linkMatchHere_length h
  simp only [List.length_cons] at hlen
  simp only [regexSplit, List.length_cons, regexSplitAux, h]
  rw [regexSplitAux_congr cs.length rest rest.length (by omega) (by omega)]

theorem regexSplit_nomatch {c : Char} {cs : List Char}
    (h : linkMatchHere (c :: cs) = none) :
    regexSplit (c :: cs) = consHead c (regexSplit cs) := by
  simp only [regexSplit, List.length_cons, regexSplitAux, h]

theorem consHead_flatten (c : Char) (L : List (List Char)) :
    (consHead c L).flatten = c :: L.flatten := by
  cases L <;> simp [consHead]

/-- Concatenating all pieces of the split (matched link tokens included)
restores the original character list. -/
theorem regexSplit_flatten (l : List Char) : (regexSplit l).flatten = l := by
  have H : ∀ n, ∀ l : List Char, l.length ≤ n → (regexSplit l).flatten = l := by
    intro n
    induction n with
    | zero =>
      intro l h
      have : l = [] := List.eq_nil_of_length_eq_zero (Nat.le_zero.mp h)
      subst this
      simp [regexSplit, regexSplitAux]
    | succ n ih =>
      intro l h
      cases l with
      | nil => simp [regexSplit, regexSplitAux]
      | cons c cs =>
        simp only [List.length_cons] at h
        cases hm : linkMatchHere (c :: cs) with
        | some p =>
          obtain ⟨t, u, rest⟩ := p
          have hlen := linkMatchHere_length hm
          simp only [List.length_cons] at hlen
          rw [regexSplit_match hm]
          simp only [List.flatten_cons, List.flatten_nil]
          rw [ih rest (by omega), ← linkMatchHere_recon hm]
          simp
        | none =>
          rw [regexSplit_nomatch hm, consHead_flatten, ih cs (by omega)]
  exact H l.length l le_rfl

/-! ## Lemmas about the literal `](` split and the token map -/

theorem splitOnBrkParen_eq : ∀ l : List Char, splitOnBrkParen l =
    match seekBrkParen l with
    | some (t, r) => t :: splitOnBrkParen r
    | none => [l] := by
  intro l
  induction l with
  | nil => simp [splitOnBrkParen, seekBrkParen]
  | cons c cs ih =>
    cases cs with
    | nil => simp [splitOnBrkParen, seekBrkParen]
    | cons c₂ cs' =>
      by_cases h : c = ']' ∧ c₂ = '('
      · simp only [splitOnBrkParen, seekBrkParen, if_pos h]
      · simp only [splitOnBrkParen, seekBrkParen, if_neg h]
        rw [ih]
        cases hs : seekBrkParen (c₂ :: cs') with
        | some p => obtain ⟨t, r⟩ := p; simp [consHead]
        | none => simp [consHead]

theorem splitOnBrkParen_seek_none {l : List Char} (h : seekBrkParen l = none) :
    splitOnBrkParen l = [l] := by
  rw [splitOnBrkParen_eq, h]

theorem splitOnBrkParen_seek_some {l t r : List Char} (h : seekBrkParen l = some (t, r)) :
    splitOnBrkParen l = t :: splitOnBrkParen r := by
  rw [splitOnBrkParen_eq, h]

theorem spanOfToken_eq_spec (part : List Char) : spanOfToken part = spanOfTokenSpec part := by
  by_cases hc : ("[".toList.isPrefixOf part ∧ hasSeq "](".toList part = true)
  · simp only [spanOfToken, spanOfTokenSpec, if_pos hc]
    generalize (part.drop 1).dropLast = inner
    cases h₁ : seekBrkParen inner with
    | none =>
      rw [splitOnBrkParen_seek_none h₁]
      simp
    | some p =>
      obtain ⟨t, r⟩ := p
      rw [splitOnBrkParen_seek_some h₁]
      cases h₂ : seekBrkParen r with
      | none =>
        rw [splitOnBrkParen_seek_none h₂]
        simp [h₂]
      | some q =>
        obtain ⟨u, r₂⟩ := q
        rw [splitOnBrkParen_seek_some h₂]
        simp [h₂]
  · simp only [spanOfToken, spanOfTokenSpec, if_neg hc]

/-- A faithful token re-serializes to itself after decoding. -/
theorem spanSurface_spanOfToken {part : List Char} (h : tokenFaithful part = true) :
    spanSurface (spanOfToken part) = part := by
  by_cases hc : ("[".toList.isPrefixOf part ∧ hasSeq "](".toList part = true)
  · simp only [tokenFaithful, if_pos hc] at h
    simp only [spanOfToken, if_pos hc]
    cases l₀ : splitOnBrkParen ((part.drop 1).dropLast) with
    | nil => rw [l₀] at h; simp at h
    | cons t rest =>
      cases rest with
      | nil => rw [l₀] at h; simp at h
      | cons u rest₂ =>
        cases rest₂ with
        | cons v rest₃ => rw [l₀] at h; simp at h
        | nil =>
          rw [l₀] at h
          simp only [decide_eq_true_eq] at h
          subst h
          simp only [spanSurface, linkSurface, Option.map_some, Option.getD_some]
          rfl
  · simp only [spanOfToken, if_neg hc]
    simp only [spanSurface]
    exact List.toList_asString part

/-- Amended round-trip: when every token of the split is faithful,
reassembling the spans (with link decoration reinserted) restores the
line. -/
theorem parseRichText_roundTrip (s : String)
    (h : ∀ part ∈ regexSplit s.toList, tokenFaithful part = true) :
    spansSurface (parseRichText s) = s := by
  unfold spansSurface parseRichText
  rw [List.map_map]
  have : (regexSplit s.toList).map (spanSurface ∘ spanOfToken) =
      (regexSplit s.toList).map id := by
    apply List.map_congr_left
    intro part hp
    exact spanSurface_spanOfToken (h part hp)
  rw [this, List.map_id, regexSplit_flatten]
  cases s
  rfl

/-! ## Lemmas about the block converter -/

theorem convertLines_skip_all : ∀ lines : List (List Char),
    (∀ l ∈ lines, trimL l ≠ "---".toList) →
    ∀ p, convertLines true p lines = flushPar p := by
  intro lines
  induction lines with
  | nil => intro _ p; rfl
  | cons line rest ih =>
    intro h p
    have hline : trimL line ≠ "---".toList := h line (by simp)
    simp only [convertLines, if_neg hline]
    exact ih (fun l hl => h l (by simp [hl])) p

theorem convertLines_skip_to_sep : ∀ pre : List (List Char), ∀ sep post p,
    (∀ l ∈ pre, trimL l ≠ "---".toList) → trimL sep = "---".toList →
    convertLines true p (pre ++ sep :: post) = convertLines false p post := by
  intro pre
  induction pre with
  | nil =>
    intro sep post p _ hsep
    simp only [List.nil_append, convertLines, if_pos hsep]
  | cons line pre' ih =>
    intro sep post p h hsep
    have hline : trimL line ≠ "---".toList := h line (by simp)
    simp only [List.cons_append, convertLines, if_neg hline]
    exact ih sep post p (fun l hl => h l (by simp [hl])) hsep

/-! ## Claim theorems -/

/-- C3: for every input string that contains no line whose trimmed content
is exactly `---`, `convertContentToBlocks` returns the empty block
sequence; and when a separator line exists, it and every line before it are
discarded: the conversion of `pre ++ sep :: post` (from the initial
skip-introduction state) equals the conversion of `post` alone from the
collecting state. -/
theorem C3_preamble_discarded :
    (∀ content : String,
      (∀ l ∈ splitOnChar '\n' content.toList, trimL l ≠ "---".toList) →
      convertContentToBlocks content = []) ∧
    (∀ pre : List (List Char), ∀ sep post,
      (∀ l ∈ pre, trimL l ≠ "---".toList) → trimL sep = "---".toList →
      convertLines true [] (pre ++ sep :: post) = convertLines false [] post) := by
  constructor
  · intro content h
    unfold convertContentToBlocks
    rw [convertLines_skip_all _ h []]
    rfl
  · intro pre sep post h hsep
    exact convertLines_skip_to_sep pre sep post [] h hsep

/-- Witness for C3: a concrete digest with no `---` line converts to
nothing, and a concrete preamble is skipped up to its separator. -/
theorem C3_witness :
    convertContentToBlocks "a\nb" = [] ∧
    convertLines true [] (["x".toList] ++ "---".toList :: ["- a".toList]) =
      convertLines false [] ["- a".toList] :=
  ⟨C3_preamble_discarded.1 "a\nb" (by decide),
   C3_preamble_discarded.2 ["x".toList] "---".toList ["- a".toList] (by decide) (by decide)⟩

/-- C2: a flush of the pending-paragraph accumulator contributes a
Paragraph block (over the parsed accumulated text) exactly when the
accumulator is non-empty and free of the literal `"AI Summarized"`; in
every other case it contributes nothing.  Consequently the spec's example
`"---\n- a\n- b\n"` converts to the two bullets with no trailing empty
paragraph. -/
theorem C2_paragraph_flush :
    (∀ p : List Char, (flushPar p).filterMap id =
      if p ≠ [] ∧ hasSeq "AI Summarized".toList p = false
      then [Block.paragraph (parseRichTextL p)] else []) ∧
    convertContentToBlocks "---\n- a\n- b\n" =
      [Block.bullet [RichSpan.plainText "a"], Block.bullet [RichSpan.plainText "b"]] := by
  constructor
  · intro p
    by_cases hp : p = []
    · simp [flushPar, hp]
    · by_cases hs : hasSeq "AI Summarized".toList p = true
      · simp only [flushPar, if_neg hp, createParagraphBlock, hs]
        simp
      · simp only [Bool.not_eq_true] at hs
        simp only [flushPar, if_neg hp, createParagraphBlock, hs]
        simp [hp]
  · decide

/-- C10: in the collecting state, a non-blank line that begins with `#` but
with none of the exact prefixes `"# "`, `"## "`, `"### "` emits no block
and is appended verbatim to the pending paragraph accumulator. -/
theorem C10_hash_without_space_is_paragraph
    (p line : List Char) (rest : List (List Char))
    (h₀ : "#".toList.isPrefixOf line = true)
    (h₁ : "# ".toList.isPrefixOf line = false)
    (h₂ : "## ".toList.isPrefixOf line = false)
    (h₃ : "### ".toList.isPrefixOf line = false)
    (h₄ : trimL line ≠ []) :
    convertLines false p (line :: rest) = convertLines false (p ++ line) rest := by
  obtain ⟨l', rfl⟩ : ∃ l', line = '#' :: l' := by
    cases line with
    | nil => simp [List.isPrefixOf] at h₀
    | cons c cs =>
      simp only [String.toList, List.isPrefixOf, Bool.and_eq_true, beq_iff_eq,
        List.isPrefixOf_nil_left, Bool.and_true] at h₀
      exact ⟨cs, by rw [← h₀]⟩
  have hb : "- ".toList.isPrefixOf ('#' :: l') = false := by
    simp [List.isPrefixOf]
  simp only [convertLines, h₁, h₂, h₃, hb, Bool.false_eq_true, if_false, if_neg h₄]

/-- Witness for C10: the lines `#Title` and `#### x` (no space after the
hashes) are accumulated as paragraph text and surface as a paragraph
block. -/
theorem C10_witness :
    convertLines false [] ["#Title".toList] = convertLines false ([] ++ "#Title".toList) [] ∧
    convertContentToBlocks "---\n#Title\n#### x" =
      [Block.paragraph [RichSpan.plainText "#Title#### x"]] :=
  ⟨C10_hash_without_space_is_paragraph [] "#Title".toList []
    (by decide) (by decide) (by decide) (by decide) (by decide), by decide⟩

theorem isPrefixOf_ex : ∀ l₁ l₂ : List Char, l₁.isPrefixOf l₂ = true →
    ∃ t, l₂ = l₁ ++ t := by
  intro l₁
  induction l₁ with
  | nil => exact fun l₂ _ => ⟨l₂, rfl⟩
  | cons c cs ih =>
    intro l₂ h
    cases l₂ with
    | nil => simp [List.isPrefixOf] at h
    | cons d ds =>
      simp only [List.isPrefixOf, Bool.and_eq_true, beq_iff_eq] at h
      obtain ⟨t, rfl⟩ := ih ds h.2
      exact ⟨t, by rw [h.1]; simp⟩

/-- C1 (counterexample): for the collecting-state input line `# A [b](c)`,
the emitted Heading block holds the single plain-text span `A [b](c)` — it
is not `parseRichText` applied to the placeholder-stripped, trimmed
remainder, which would decode the inline link. -/
theorem C1_counterexample :
    convertContentToBlocks "---\n# A [b](c)" =
      [Block.heading HeadingType.heading_1 [RichSpan.plainText "A [b](c)"]] ∧
    [RichSpan.plainText "A [b](c)"] ≠
      parseRichText (trimL (stripPlaceholders "A [b](c)".toList)).asString := by
  exact ⟨by decide, by decide⟩

/-- C1 (amended): in the collecting state, a line starting with the exact
mark of a heading level first flushes the pending paragraph and then emits
a Heading block of that level whose text is a single plain-text span
holding the remainder of the line after the mark, with every
`@([...](...))` placeholder match stripped and the result trimmed (the
remainder is not link-parsed); bullet and paragraph text is parsed without
placeholder stripping (the stripping is exclusive to headings). -/
theorem C1_heading_emission (ty : HeadingType) (p line : List Char)
    (rest : List (List Char)) (h : (headingMark ty).isPrefixOf line = true) :
    (convertLines false p (line :: rest) =
      flushPar p ++ some (Block.heading ty [RichSpan.plainText
        (trimL (stripPlaceholders (line.drop (headingMark ty).length))).asString]) ::
      convertLines false [] rest) ∧
    (∀ c, createBulletedListItemBlock c = Block.bullet (parseRichTextL c)) ∧
    (∀ c, hasSeq "AI Summarized".toList c = false → c ≠ [] →
      createParagraphBlock c = some (Block.paragraph (parseRichTextL c))) := by
  refine ⟨?_, fun c => rfl, ?_⟩
  · obtain ⟨t, rfl⟩ := isPrefixOf_ex _ _ h
    cases ty
    · simp only [headingMark] at h ⊢
      simp [convertLines, createHeadingBlock, List.isPrefixOf]
    · simp only [headingMark] at h ⊢
      simp [convertLines, createHeadingBlock, List.isPrefixOf]
    · simp only [headingMark] at h ⊢
      simp [convertLines, createHeadingBlock, List.isPrefixOf]
  · intro c h₁ h₂
    simp only [createParagraphBlock, h₁]
    simp [h₂]

/-- Witness for C1: a level-2 heading line with a pending paragraph `x`,
whose placeholder `@([x](y))` is stripped; end to end, the digest
`"---\n## T @([x](y))"` yields the stripped, trimmed plain heading. -/
theorem C1_witness :
    (convertLines false "x".toList ["## T @([x](y))".toList] =
      flushPar "x".toList ++ some (Block.heading HeadingType.heading_2 [RichSpan.plainText
        (trimL (stripPlaceholders (("## T @([x](y))".toList).drop
          (headingMark HeadingType.heading_2).length))).asString]) ::
      convertLines false [] []) ∧
    createParagraphBlock "hi".toList =
      some (Block.paragraph (parseRichTextL "hi".toList)) ∧
    convertContentToBlocks "---\n## T @([x](y))" =
      [Block.heading HeadingType.heading_2 [RichSpan.plainText "T"]] :=
  ⟨(C1_heading_emission HeadingType.heading_2 "x".toList "## T @([x](y))".toList []
      (by decide)).1,
   (C1_heading_emission HeadingType.heading_2 "x".toList "## T @([x](y))".toList []
      (by decide)).2.2 "hi".toList (by decide) (by decide),
   by decide⟩

/-- C4 (counterexample): the malformed token `[a](b` (unbalanced: no
closing parenthesis, so it is no regex match and survives the split as a
plain token) is decoded as a Link span with an empty url, not kept as a
PlainText span. -/
theorem C4_counterexample :
    parseRichText "[a](b" = [RichSpan.link "a" (some "")] ∧
    parseRichText "[a](b" ≠ [RichSpan.plainText "[a](b"] := by
  exact ⟨by decide, by decide⟩

/-- C4 (amended): `parseRichText` splits the line at every non-greedy match
of `[...](...)` and maps each token to exactly one span; a token that
starts with `[` and contains `](` (matched or not — malformed tokens with
a `](` included) becomes a Link span by slicing off the first and last
characters and splitting at `](` (text = the segment before the first
`](`, url = the segment between the first and second `](`, absent when the
sliced token has no `](` left); every other token, empty strings included,
becomes a PlainText span with its literal content.  No error is raised:
the map is total. -/
theorem C4_token_classification (s : String) : parseRichText s = parseRichTextSpec s := by
  unfold parseRichText parseRichTextSpec
  exact List.map_congr_left fun part _ => spanOfToken_eq_spec part

/-- C5 (counterexample): for the line `[a](b](c)` the lazily matched url
part `b](c` is split at its interior `](` and the tail `](c` is dropped by
the destructuring, so reassembling the spans with the link decoration
reinserted does not restore the line. -/
theorem C5_counterexample :
    parseRichText "[a](b](c)" =
      [RichSpan.plainText "", RichSpan.link "a" (some "b"), RichSpan.plainText ""] ∧
    spansSurface (parseRichText "[a](b](c)") ≠ "[a](b](c)" := by
  exact ⟨by decide, by decide⟩

/-- C5 (amended): `parseRichText` decodes the spec's example line exactly
as stated, and for every line all of whose tokens are faithful (each token
entering the link branch is exactly `[t](u)` for its two `](`-split
segments — no second interior `](` and a final `)`), concatenating the
span contents with the `[text](url)` decoration reinserted around Link
spans restores the original line. -/
theorem C5_roundTrip :
    parseRichText "see [docs](http://x)  more" =
      [RichSpan.plainText "see ", RichSpan.link "docs" (some "http://x"),
       RichSpan.plainText "  more"] ∧
    ∀ s : String, (∀ part ∈ regexSplit s.toList, tokenFaithful part = true) →
      spansSurface (parseRichText s) = s :=
  ⟨by decide, fun s h => parseRichText_roundTrip s h⟩

/-- Witness for C5: the spec's example line round-trips. -/
theorem C5_witness :
    spansSurface (parseRichText "see [docs](http://x)  more") =
      "see [docs](http://x)  more" :=
  C5_roundTrip.2 "see [docs](http://x)  more" (by decide)

theorem ordSuffixChain_eq_spec : ∀ v, v < 100 → ordSuffixChain v = ordinalSuffixSpec v := by
  decide

/-- C6: for every day number `d ≥ 1`, `getOrdinalSuffix` appends the suffix
given by the spec's rule: `d % 100 ∈ {11,12,13} → "th"`, else by `d % 10`
(`1→"st"`, `2→"nd"`, `3→"rd"`, otherwise `"th"`). -/
theorem C6_ordinal_suffix (d : Nat) (_h : 1 ≤ d) :
    getOrdinalSuffix d = toString d ++ ordinalSuffixSpec d := by
  unfold getOrdinalSuffix
  congr 1
  rw [ordSuffixChain_eq_spec (d % 100) (Nat.mod_lt d (by norm_num))]
  unfold ordinalSuffixSpec
  rw [Nat.mod_mod_of_dvd d (dvd_refl 100), Nat.mod_mod_of_dvd d (by norm_num : (10:ℕ) ∣ 100)]

/-- Witness for C6, covering the spec's listed examples. -/
theorem C6_witness :
    getOrdinalSuffix 1 = "1st" ∧ getOrdinalSuffix 2 = "2nd" ∧
    getOrdinalSuffix 3 = "3rd" ∧ getOrdinalSuffix 4 = "4th" ∧
    getOrdinalSuffix 11 = "11th" ∧ getOrdinalSuffix 21 = "21st" :=
  ⟨(C6_ordinal_suffix 1 (by norm_num)).trans (by decide),
   (C6_ordinal_suffix 2 (by norm_num)).trans (by decide),
   (C6_ordinal_suffix 3 (by norm_num)).trans (by decide),
   (C6_ordinal_suffix 4 (by norm_num)).trans (by decide),
   (C6_ordinal_suffix 11 (by norm_num)).trans (by decide),
   (C6_ordinal_suffix 21 (by norm_num)).trans (by decide)⟩

theorem findMonthPageLoop_eq (m : String) : ∀ children : List NotionChildBlock,
    findMonthPageLoop m (children.filter isChildPage) = firstMonthMatch children m := by
  intro children
  induction children with
  | nil => rfl
  | cons b rest ih =>
    cases b with
    | childPage id title =>
      cases hq : hasSeq m.toList title.toList with
      | true =>
        have hq' : hasSeq m.data title.data = true := hq
        simp [List.filter, isChildPage, findMonthPageLoop, firstMonthMatch, hq, hq']
      | false =>
        have hq' : hasSeq m.data title.data = false := hq
        simp only [List.filter, isChildPage, findMonthPageLoop, firstMonthMatch,
          List.filterMap_cons] at ih ⊢
        simp [hq, hq', ih]
    | other ty =>
      simp only [List.filter, isChildPage, findMonthPageLoop, firstMonthMatch,
        List.filterMap_cons] at ih ⊢
      simpa using ih

/-- C7: `handlePageContext` returns the first page-kind child in listing
order whose title contains the month name as a substring; when no child
matches, its remote run issues exactly one create call, for a page under
`parentId` titled exactly the month name, and returns that call's
result. -/
theorem C7_month_page_resolution :
    (∀ children m parentId, handlePageContext children m parentId =
      match firstMonthMatch children m with
      | some page => MonthResolution.existing page
      | none => MonthResolution.createNew parentId m) ∧
    (∀ env : NotionEnv, ∀ m parentId children,
      env.listChildrenResult parentId = .ok children →
      firstMonthMatch children m = none →
      handlePageContextRun env m parentId =
        (env.createPageResult parentId m [],
         [RemoteCall.listChildren parentId, RemoteCall.createPage parentId m []])) := by
  constructor
  · intro children m parentId
    simp only [handlePageContext]
    rw [findMonthPageLoop_eq]
  · intro env m parentId children h₁ h₂
    unfold handlePageContextRun
    simp only [h₁]
    rw [findMonthPageLoop_eq m children, h₂]

/-- Witness for C7: with both `March Notes` and `March` present, the first
substring match in listing order wins; with no children, exactly one create
call titled `March` is issued and its result returned. -/
theorem C7_witness :
    handlePageContext
      [NotionChildBlock.other "paragraph",
       NotionChildBlock.childPage "i1" "March Notes",
       NotionChildBlock.childPage "i2" "March"] "March" rootPageId =
      MonthResolution.existing ⟨"i1", "March Notes"⟩ ∧
    handlePageContextRun
      ⟨fun _ => .ok [], fun _ t _ => .ok ⟨"new", t⟩⟩ "March" rootPageId =
      (.ok ⟨"new", "March"⟩,
       [RemoteCall.listChildren rootPageId, RemoteCall.createPage rootPageId "March" []]) :=
  ⟨(C7_month_page_resolution.1 _ "March" rootPageId).trans (by decide),
   (C7_month_page_resolution.2 ⟨fun _ => .ok [], fun _ t _ => .ok ⟨"new", t⟩⟩
      "March" rootPageId [] rfl (by decide)).trans rfl⟩

/-- C8: `createDayPage` issues exactly one create call, whose children are
exactly the block sequence of the single conversion of the digest content,
in order, and whose title is the long month name followed by the ordinal
day. -/
theorem C8_day_page_children (env : NotionEnv) (monthPageId month : String)
    (day : Nat) (content : String) :
    (createDayPage env monthPageId month day content).2 =
      [RemoteCall.createPage monthPageId (month ++ " " ++ getOrdinalSuffix day)
        (convertContentToBlocks content)] := rfl

theorem isPrefixOf_append_ex : ∀ n t : List Char, n.isPrefixOf (n ++ t) = true := by
  intro n t
  induction n with
  | nil => simp [List.isPrefixOf]
  | cons c cs ih => simp [List.isPrefixOf, ih]

theorem hasSeq_append_self : ∀ pre n : List Char, hasSeq n (pre ++ n) = true := by
  intro pre n
  induction pre with
  | nil =>
    cases n with
    | nil => rfl
    | cons c cs =>
      have h := isPrefixOf_append_ex (c :: cs) []
      rw [List.append_nil] at h
      simp [hasSeq, h]
  | cons c pre' ih => simp [hasSeq, ih]

theorem strToList_append (a b : String) : (a ++ b).toList = a.toList ++ b.toList :=
  String.data_append a b

theorem hasSeq_strAppend (pre e : String) : hasSeq e.toList (pre ++ e).toList = true := by
  rw [strToList_append]
  exact hasSeq_append_self pre.toList e.toList

/-- C9: `updateMorningBriefDb` returns an error exactly when one of the
remote calls it performed failed; every error it returns is tagged
`"Notion Error: "` and contains the failing call's underlying error message
as a substring (no retry: each performed call appears once in the trace and
its outcome is final). -/
theorem C9_notion_error_propagation (env : NotionEnv) (currentMonth month : String)
    (day : Nat) (content : String) :
    (∀ s, (updateMorningBriefDb env currentMonth month day content).1 = .error s →
      ∃ e, s = "Notion Error: " ++ e) ∧
    ((∃ s, (updateMorningBriefDb env currentMonth month day content).1 = .error s) ↔
      ∃ c ∈ (updateMorningBriefDb env currentMonth month day content).2,
        callErr env c ≠ none) ∧
    (∀ s, (updateMorningBriefDb env currentMonth month day content).1 = .error s →
      ∃ c ∈ (updateMorningBriefDb env currentMonth month day content).2,
        ∃ e, callErr env c = some e ∧ hasSeq e.toList s.toList = true) := by
  cases hl : env.listChildrenResult rootPageId with
  | error e =>
    have hu : updateMorningBriefDb env currentMonth month day content =
        (.error ("Notion Error: " ++ e), [RemoteCall.listChildren rootPageId]) := by
      simp only [updateMorningBriefDb, handlePageContextRun, hl]
    rw [hu]
    refine ⟨?_, ?_, ?_⟩
    · intro s hs
      exact ⟨e, (Except.error.inj hs).symm⟩
    · constructor
      · intro _
        exact ⟨.listChildren rootPageId, by simp, by simp [callErr, hl]⟩
      · intro _
        exact ⟨"Notion Error: " ++ e, rfl⟩
    · intro s hs
      obtain rfl : "Notion Error: " ++ e = s := Except.error.inj hs
      exact ⟨.listChildren rootPageId, by simp, e, by simp [callErr, hl],
        hasSeq_strAppend _ _⟩
  | ok children =>
    cases hf : findMonthPageLoop currentMonth (children.filter isChildPage) with
    | some page =>
      cases hc : env.createPageResult page.id (month ++ " " ++ getOrdinalSuffix day)
          (convertContentToBlocks content) with
      | ok p =>
        have hu : updateMorningBriefDb env currentMonth month day content =
            (.ok p, [RemoteCall.listChildren rootPageId,
              RemoteCall.createPage page.id (month ++ " " ++ getOrdinalSuffix day)
                (convertContentToBlocks content)]) := by
          simp only [updateMorningBriefDb, handlePageContextRun, createDayPage, hl, hf, hc]
          rfl
        rw [hu]
        refine ⟨?_, ?_, ?_⟩
        · intro s hs; exact absurd hs (by simp)
        · constructor
          · rintro ⟨s, hs⟩; exact absurd hs (by simp)
          · rintro ⟨c, hcmem, hcerr⟩
            simp only [List.mem_cons, List.mem_singleton, List.not_mem_nil] at hcmem
            rcases hcmem with rfl | rfl | h
            · exact absurd (by simp [callErr, hl]) hcerr
            · exact absurd (by simp [callErr, hc]) hcerr
            · exact absurd h (by simp)
        · intro s hs; exact absurd hs (by simp)
      | error e =>
        have hu : updateMorningBriefDb env currentMonth month day content =
            (.error ("Notion Error: " ++ ("Failed to create day page in Notion: " ++ e)),
             [RemoteCall.listChildren rootPageId,
              RemoteCall.createPage page.id (month ++ " " ++ getOrdinalSuffix day)
                (convertContentToBlocks content)]) := by
          simp only [updateMorningBriefDb, handlePageContextRun, createDayPage, hl, hf, hc]
          rfl
        rw [hu]
        refine ⟨?_, ?_, ?_⟩
        · intro s hs
          exact ⟨"Failed to create day page in Notion: " ++ e, (Except.error.inj hs).symm⟩
        · constructor
          · intro _
            refine ⟨.createPage page.id (month ++ " " ++ getOrdinalSuffix day)
              (convertContentToBlocks content), by simp, by simp [callErr, hc]⟩
          · intro _
            exact ⟨_, rfl⟩
        · intro s hs
          obtain rfl := Except.error.inj hs
          refine ⟨.createPage page.id (month ++ " " ++ getOrdinalSuffix day)
            (convertContentToBlocks content), by simp, e, by simp [callErr, hc], ?_⟩
          rw [← String.append_assoc]
          exact hasSeq_strAppend _ _
    | none =>
      cases hm : env.createPageResult rootPageId currentMonth [] with
      | error e =>
        have hu : updateMorningBriefDb env currentMonth month day content =
            (.error ("Notion Error: " ++ e),
             [RemoteCall.listChildren rootPageId,
              RemoteCall.createPage rootPageId currentMonth []]) := by
          simp only [updateMorningBriefDb, handlePageContextRun, hl, hf, hm]
        rw [hu]
        refine ⟨?_, ?_, ?_⟩
        · intro s hs
          exact ⟨e, (Except.error.inj hs).symm⟩
        · constructor
          · intro _
            exact ⟨.createPage rootPageId currentMonth [], by simp, by simp [callErr, hm]⟩
          · intro _
            exact ⟨_, rfl⟩
        · intro s hs
          obtain rfl := Except.error.inj hs
          exact ⟨.createPage rootPageId currentMonth [], by simp, e,
            by simp [callErr, hm], hasSeq_strAppend _ _⟩
      | ok mp =>
        cases hc : env.createPageResult mp.id (month ++ " " ++ getOrdinalSuffix day)
            (convertContentToBlocks content) with
        | ok p =>
          have hu : updateMorningBriefDb env currentMonth month day content =
              (.ok p, [RemoteCall.listChildren rootPageId,
                RemoteCall.createPage rootPageId currentMonth [],
                RemoteCall.createPage mp.id (month ++ " " ++ getOrdinalSuffix day)
                  (convertContentToBlocks content)]) := by
            simp only [updateMorningBriefDb, handlePageContextRun, createDayPage,
              hl, hf, hm, hc]
            rfl
          rw [hu]
          refine ⟨?_, ?_, ?_⟩
          · intro s hs; exact absurd hs (by simp)
          · constructor
            · rintro ⟨s, hs⟩; exact absurd hs (by simp)
            · rintro ⟨c, hcmem, hcerr⟩
              simp only [List.mem_cons, List.not_mem_nil] at hcmem
              rcases hcmem with rfl | rfl | rfl | h
              · exact absurd (by simp [callErr, hl]) hcerr
              · exact absurd (by simp [callErr, hm]) hcerr
              · exact absurd (by simp [callErr, hc]) hcerr
              · exact absurd h (by simp)
          · intro s hs; exact absurd hs (by simp)
        | error e =>
          have hu : updateMorningBriefDb env currentMonth month day content =
              (.error ("Notion Error: " ++ ("Failed to create day page in Notion: " ++ e)),
               [RemoteCall.listChildren rootPageId,
                RemoteCall.createPage rootPageId currentMonth [],
                RemoteCall.createPage mp.id (month ++ " " ++ getOrdinalSuffix day)
                  (convertContentToBlocks content)]) := by
            simp only [updateMorningBriefDb, handlePageContextRun, createDayPage,
              hl, hf, hm, hc]
            rfl
          rw [hu]
          refine ⟨?_, ?_, ?_⟩
          · intro s hs
            exact ⟨"Failed to create day page in Notion: " ++ e, (Except.error.inj hs).symm⟩
          · constructor
            · intro _
              refine ⟨.createPage mp.id (month ++ " " ++ getOrdinalSuffix day)
                (convertContentToBlocks content), by simp, by simp [callErr, hc]⟩
            · intro _
              exact ⟨_, rfl⟩
          · intro s hs
            obtain rfl := Except.error.inj hs
            refine ⟨.createPage mp.id (month ++ " " ++ getOrdinalSuffix day)
              (convertContentToBlocks content), by simp, e, by simp [callErr, hc], ?_⟩
            rw [← String.append_assoc]
            exact hasSeq_strAppend _ _

/-- Witness for C9: with a listing call that fails with `boom`, the raised
error is the tagged wrapper and contains the cause. -/
theorem C9_witness :
    ∃ c ∈ (updateMorningBriefDb
        ⟨fun _ => .error "boom", fun _ _ _ => .error "x"⟩ "May" "May" 1 "").2,
      ∃ e, callErr ⟨fun _ => .error "boom", fun _ _ _ => .error "x"⟩ c = some e ∧
        hasSeq e.toList ("Notion Error: boom").toList = true :=
  (C9_notion_error_propagation
    ⟨fun _ => .error "boom", fun _ _ _ => .error "x"⟩ "May" "May" 1 "").2.2
    "Notion Error: boom" rfl

end MorningRead

